import Mathlib

/-!
Shallow embedding of the json-rs repository (src/lexer.rs, src/parser.rs,
src/token.rs, src/utils.rs) and proofs about the claims of its specification.

Modelling conventions:
- Rust panics become `Option.none`; a `some` result is a successful run.
- The `CharIter` / `TokenIter` cursors become explicit `List Char` /
  `List Token` suffixes: `peek` is a pattern match on the head, `next`
  drops the head.
- `Pos` line/column counters (`u32` in the source, mutated in place)
  become `Nat` fields threaded through explicitly; they only ever grow
  within a run, so machine overflow is not reachable for the inputs the
  claims quantify over.
- Loops in the source become fuel-indexed recursions; callers pass a fuel
  that exceeds the number of loop iterations (each iteration consumes at
  least one element of the remaining input).
- `HashMap<String, Node>` becomes a key-unique association list with an
  insert that overwrites the value of an existing key in place
  (`HashMap::insert` semantics; iteration order is unspecified in the
  source and no claim depends on it).
-/

namespace JsonRs

/-- Token kinds, from `TokenType` in src/token.rs. -/
inductive TokenType where
  | Int
  | String
  | Float
  | Name
  | LSqBrac
  | RSqBrac
  | LBrace
  | RBrace
  | Comma
  | Colon
deriving DecidableEq

/-- A lexical token, from `Token` in src/token.rs (fields in source order). -/
structure Token where
  line_no : Nat
  col_no : Nat
  tok_type : TokenType
  value : String
deriving DecidableEq

/-- Line/column bookkeeping, from `Pos` in src/utils.rs. -/
structure Pos where
  line : Nat
  column : Nat
deriving DecidableEq

/-- Hexadecimal-digit test matching the `'0'..='9' | 'a'..='f' | 'A'..='F'`
arm inside `try_convert_escape_sequence` (src/lexer.rs). -/
def isHexCh (c : Char) : Bool :=
  c.isDigit || ('a' ≤ c && c ≤ 'f') || ('A' ≤ c && c ≤ 'F')

/-- Value of one hexadecimal digit, used to model
`u32::from_str_radix(hex, 16)` on the four collected digits. -/
def hexVal (c : Char) : Nat :=
  if c.isDigit then c.toNat - '0'.toNat
  else if 'a' ≤ c && c ≤ 'f' then c.toNat - 'a'.toNat + 10
  else c.toNat - 'A'.toNat + 10

/-- Single-character escapes of `try_convert_escape_sequence`
(src/lexer.rs lines 10-22): the non-`u`, non-error arms of the match. -/
def escapeChar (ch : Char) : Option Char :=
  if ch = '"' || ch = '\\' || ch = '/' then some ch
  else if ch = 'b' then some '\x08'
  else if ch = 'f' then some '\x0c'
  else if ch = 'n' then some '\n'
  else if ch = 'r' then some '\r'
  else if ch = 't' then some '\t'
  else none

/-- Embedding of `try_convert_escape_sequence` (src/lexer.rs lines 4-50).
The cursor stands just after the backslash.  The `u` arm reads exactly four
hex digits (EOF or a non-hex digit is a panic, hence `none`), adds 3 to the
column per digit plus the final shared `pos.column += 1`, and decodes the
value with `char::from_u32(..).unwrap()`: the unwrap panics — `none` — when
the value is a surrogate (the only non-scalar values expressible in four
hex digits). -/
def tryConvertEscapeSequence (chars : List Char) (pos : Pos) :
    Option (Char × List Char × Pos) :=
  match chars with
  | [] => none
  | ch :: rest =>
    if ch = 'u' then
      match rest with
      | h1 :: h2 :: h3 :: h4 :: rest2 =>
        if isHexCh h1 && isHexCh h2 && isHexCh h3 && isHexCh h4 then
          let v := ((hexVal h1 * 16 + hexVal h2) * 16 + hexVal h3) * 16 + hexVal h4
          if 0xD800 ≤ v ∧ v ≤ 0xDFFF then none
          else some (Char.ofNat v, rest2, { pos with column := pos.column + 12 + 1 })
        else none
      | _ => none
    else
      match escapeChar ch with
      | none => none
      | some c => some (c, rest, { pos with column := pos.column + 1 })

/-- Loop body of `try_get_string` (src/lexer.rs lines 58-99).  `result` is
the accumulated literal (which already holds the opening quote pushed by
the source before the loop), `lineNo`/`colNo` the position captured at
entry.  Fuel bounds the iteration count; every iteration consumes at least
one character, so `chars.length + 1` always suffices. -/
def tryGetStringLoop : Nat → List Char → Pos → String → Nat → Nat →
    Option (Token × List Char × Pos)
  | 0, _, _, _, _, _ => none
  | fuel + 1, chars, pos, result, lineNo, colNo =>
    match chars with
    | [] => none
    | ch :: rest =>
      if ch = '\n' then none
      else if ch = '\\' then
        match tryConvertEscapeSequence rest { pos with column := pos.column + 1 } with
        | none => none
        | some (c, rest2, pos2) =>
          tryGetStringLoop fuel rest2 pos2 (result.push c) lineNo colNo
      else if ch = '"' then
        some (Token.mk lineNo colNo TokenType.String (result.push ch), rest, pos)
      else
        tryGetStringLoop fuel rest { pos with column := pos.column + 1 }
          (result.push ch) lineNo colNo

/-- Embedding of `try_get_string` (src/lexer.rs lines 52-100).  Note that
the source seeds `result` with the consumed opening quote and pushes the
closing quote before returning, so the token literal retains both quotes
around the decoded content. -/
def tryGetString (chars : List Char) (pos : Pos) :
    Option (Token × List Char × Pos) :=
  match chars with
  | [] => none
  | q :: rest =>
    tryGetStringLoop (rest.length + 1) rest pos (String.mk [q]) pos.line pos.column

/-- Digit-grabbing loop of `try_grab_integer` (src/lexer.rs lines 118-132):
append decimal digits until a non-digit or EOF. -/
def grabDigits : List Char → String → String × List Char
  | [], acc => (acc, [])
  | c :: rest, acc =>
    if c.isDigit then grabDigits rest (acc.push c) else (acc, c :: rest)

/-- Embedding of `try_grab_integer` (src/lexer.rs lines 102-135).  The
minus-sign arm of the source pushes the peeked digit into `result` without
consuming it from the cursor, so that digit is read again by the following
loop and appears twice in the returned text; the embedding reproduces
that behaviour exactly. -/
def tryGrabInteger (chars : List Char) : Option (String × List Char) :=
  match chars with
  | [] => none
  | first :: rest =>
    if first = '-' then
      match rest with
      | [] => none
      | x :: _ =>
        if x.isDigit then some (grabDigits rest ((String.mk [first]).push x))
        else none
    else some (grabDigits rest (String.mk [first]))

/-- Embedding of `try_grab_exponent` (src/lexer.rs lines 137-153).  The
source discards the consumed marker character (`chars.next();`) and always
starts the returned text with a lowercase `'e'`, whatever the marker was. -/
def tryGrabExponent (chars : List Char) : Option (String × List Char) :=
  match chars.tail with
  | [] => none
  | ch :: _ =>
    if ch.isDigit || ch = '-' then
      match tryGrabInteger chars.tail with
      | none => none
      | some (s, r) => some ((String.mk ['e']) ++ s, r)
    else none

/-- Embedding of `try_get_number` (src/lexer.rs lines 155-217).  After
appending an exponent to a plain integer body the source falls through to
the final `Token::new(TokenType::Int, ..)`, so `1e5`-style lexemes are
emitted with kind `Int`; only the decimal-point arm returns `Float`.  The
source never touches `pos` here, so the position is read-only. -/
def tryGetNumber (chars : List Char) (pos : Pos) : Option (Token × List Char) :=
  match tryGrabInteger chars with
  | none => none
  | some (result, rest) =>
    match rest with
    | [] => some (Token.mk pos.line pos.column TokenType.Int result, [])
    | next :: rest1 =>
      if next = 'e' || next = 'E' then
        match tryGrabExponent rest with
        | none => none
        | some (expPart, rest2) =>
          some (Token.mk pos.line pos.column TokenType.Int (result ++ expPart), rest2)
      else if next = '.' then
        match rest1 with
        | [] => none
        | d :: _ =>
          if d.isDigit then
            match tryGrabInteger rest1 with
            | none => none
            | some (fracPart, rest3) =>
              let result3 := (result.push next) ++ fracPart
              match rest3 with
              | [] => some (Token.mk pos.line pos.column TokenType.Float result3, [])
              | e2 :: _ =>
                if e2 = 'e' || e2 = 'E' then
                  match tryGrabExponent rest3 with
                  | none => none
                  | some (ep, rest4) =>
                    some (Token.mk pos.line pos.column TokenType.Float (result3 ++ ep), rest4)
                else some (Token.mk pos.line pos.column TokenType.Float result3, rest3)
          else none
      else some (Token.mk pos.line pos.column TokenType.Int result, rest)

/-- Character class `'a'..='z' | 'A'..='Z' | '0'..='9' | '_'` of the
`try_get_name` loop (src/lexer.rs line 227). -/
def isNameCh (c : Char) : Bool := c.isAlpha || c.isDigit || c = '_'

/-- Loop of `try_get_name` (src/lexer.rs lines 224-237); also counts the
consumed continuation characters, each of which advances the column. -/
def grabNameChars : List Char → String → Nat → String × List Char × Nat
  | [], acc, k => (acc, [], k)
  | c :: rest, acc, k =>
    if isNameCh c then grabNameChars rest (acc.push c) (k + 1)
    else (acc, c :: rest, k)

/-- Embedding of `try_get_name` (src/lexer.rs lines 219-245).  The first
character is consumed without a column advance; the token records the
position reached after the loop. -/
def tryGetName (chars : List Char) (pos : Pos) :
    Option (Token × List Char × Pos) :=
  match chars with
  | [] => none
  | first :: rest =>
    match grabNameChars rest (String.mk [first]) 0 with
    | (result, rest2, k) =>
      let pos2 : Pos := { pos with column := pos.column + k }
      some (Token.mk pos2.line pos2.column TokenType.Name result, rest2, pos2)

/-- Kind of a structural punctuation character, from the
`'\x7b' | '\x7d' | '[' | ']' | ',' | ':'` arm of `tokenise`
(src/lexer.rs lines 287-305). -/
def structuralKind (ch : Char) : Option TokenType :=
  if ch = '\x7b' then some TokenType.LBrace
  else if ch = '\x7d' then some TokenType.RBrace
  else if ch = '[' then some TokenType.LSqBrac
  else if ch = ']' then some TokenType.RSqBrac
  else if ch = ',' then some TokenType.Comma
  else if ch = ':' then some TokenType.Colon
  else none

/-- Main loop of `tokenise` (src/lexer.rs lines 257-311).  A newline
advances the line and resets the column to `0` (not `1`); other whitespace
advances the column; the punctuation arm advances the column before
building the token.  Each iteration consumes at least one character, so
fuel `chars.length + 1` always suffices. -/
def tokeniseLoop : Nat → List Char → Pos → List Token → Option (List Token)
  | 0, _, _, _ => none
  | fuel + 1, chars, pos, acc =>
    match chars with
    | [] => some acc
    | ch :: rest =>
      if ch = '\n' then
        tokeniseLoop fuel rest { line := pos.line + 1, column := 0 } acc
      else if ch = ' ' || ch = '\t' || ch = '\r' then
        tokeniseLoop fuel rest { pos with column := pos.column + 1 } acc
      else if ch = '"' then
        match tryGetString chars pos with
        | none => none
        | some (tok, rest2, pos2) => tokeniseLoop fuel rest2 pos2 (acc ++ [tok])
      else if ch.isDigit || ch = '-' then
        match tryGetNumber chars pos with
        | none => none
        | some (tok, rest2) => tokeniseLoop fuel rest2 pos (acc ++ [tok])
      else if ch.isAlpha || ch = '_' then
        match tryGetName chars pos with
        | none => none
        | some (tok, rest2, pos2) => tokeniseLoop fuel rest2 pos2 (acc ++ [tok])
      else
        match structuralKind ch with
        | none => none
        | some tt =>
          tokeniseLoop fuel rest { pos with column := pos.column + 1 }
            (acc ++ [Token.mk pos.line (pos.column + 1) tt (String.mk [ch])])

/-- Embedding of `tokenise` (src/lexer.rs lines 247-314): run the loop from
position `(1, 1)` over the whole text. -/
def tokenise (s : String) : Option (List Token) :=
  tokeniseLoop (s.data.length + 1) s.data { line := 1, column := 1 } []

/-- The parsed value tree, from `Node` in src/parser.rs.  A `Float` carries
the token literal it was parsed from: only the success or failure of the
`str::parse::<f64>` step is observable to the claims, and IEEE semantics
are outside this embedding, so the accepted literal stands for the `f64`.
`Object` models the `HashMap<String, Node>` as a key-unique association
list (see `insertKey`). -/
inductive Node where
  | Integer : Int → Node
  | String : String → Node
  | Float : String → Node
  | Bool : Bool → Node
  | Null : Node
  | Array : List Node → Node
  | Object : List (String × Node) → Node
  | Empty : Node

/-- Decimal digits to their value; `none` on an empty or non-digit list.
Models the digit-accumulation of Rust's integer `FromStr`. -/
def digitsVal : List Char → Option Nat
  | [] => none
  | l =>
    if l.all Char.isDigit then
      some (l.foldl (fun acc c => acc * 10 + (c.toNat - '0'.toNat)) 0)
    else none

/-- Model of `str::parse::<i64>`: an optional sign, one or more decimal
digits, and a range check against the 64-bit two's-complement bounds. -/
def parseI64 (s : String) : Option Int :=
  let signDigits : Bool × List Char :=
    match s.data with
    | '-' :: r => (true, r)
    | '+' :: r => (false, r)
    | r => (false, r)
  match digitsVal signDigits.2 with
  | none => none
  | some n =>
    let v : Int := if signDigits.1 then -(n : Int) else (n : Int)
    if -(2 ^ 63) ≤ v ∧ v ≤ 2 ^ 63 - 1 then some v else none

/-- Exponent suffix of Rust's `f64` `FromStr` grammar: an optional sign
followed by one or more digits. -/
def expDigitsOk : List Char → Bool
  | [] => false
  | c :: rest =>
    let ds := if c = '+' || c = '-' then rest else c :: rest
    !ds.isEmpty && ds.all Char.isDigit

/-- Model of the acceptance condition of `str::parse::<f64>` (Rust's
documented `FromStr` grammar for `f64`): optional sign, then `inf`,
`infinity` or `nan` (case-insensitive), or a mantissa with at least one
digit and an optional `.` and exponent part.  Only acceptance matters to
the claims; the numeric value is kept as the literal (see `Node.Float`). -/
def f64SyntaxOk (s : String) : Bool :=
  let l : List Char :=
    match s.data with
    | '+' :: r => r
    | '-' :: r => r
    | r => r
  let low := l.map Char.toLower
  if low = "inf".data || low = "infinity".data || low = "nan".data then true
  else
    let intPart := l.takeWhile Char.isDigit
    let r1 := l.dropWhile Char.isDigit
    match r1 with
    | [] => !intPart.isEmpty
    | '.' :: r2 =>
      let frac := r2.takeWhile Char.isDigit
      let r3 := r2.dropWhile Char.isDigit
      (!intPart.isEmpty || !frac.isEmpty) &&
        (match r3 with
         | [] => true
         | e :: r4 => (e = 'e' || e = 'E') && expDigitsOk r4)
    | e :: r4 => (e = 'e' || e = 'E') && !intPart.isEmpty && expDigitsOk r4

/-- Embedding of `parse_simple` (src/parser.rs lines 45-77): a failing
numeric parse or an unknown name panics, hence `none`. -/
def parseSimple (t : Token) : Option Node :=
  match t.tok_type with
  | TokenType.Int =>
    match parseI64 t.value with
    | none => none
    | some n => some (Node.Integer n)
  | TokenType.Float =>
    if f64SyntaxOk t.value then some (Node.Float t.value) else none
  | TokenType.String => some (Node.String t.value)
  | TokenType.Name =>
    if t.value = "true" then some (Node.Bool true)
    else if t.value = "false" then some (Node.Bool false)
    else if t.value = "null" then some Node.Null
    else none
  | _ => none

/-- `HashMap::insert` on the association-list model of the object body:
overwrite the value of an existing key, otherwise append the new pair. -/
def insertKey : List (String × Node) → String → Node → List (String × Node)
  | [], k, v => [(k, v)]
  | (k2, v2) :: rest, k, v =>
    if k2 = k then (k, v) :: rest else (k2, v2) :: insertKey rest k v

mutual

/-- Embedding of `parse_array` (src/parser.rs lines 79-124): consume the
opening bracket (`tokens.next().unwrap()`, `none` on an empty stream) and
run the item loop. -/
def parseArray : Nat → List Token → Option (Node × List Token)
  | 0, _ => none
  | fuel + 1, ts =>
    match ts with
    | [] => none
    | _start :: rest =>
      match parseArrayLoop fuel [] rest with
      | none => none
      | some (body, r) => some (Node.Array body, r)

/-- Loop of `parse_array` (src/parser.rs lines 85-121).  A leading
`RSqBrac` breaks without consuming the bracket (the source's first `break`
is reached from a `peek`); after an item, a comma is consumed and the loop
continues, and a closing bracket is consumed and the loop breaks. -/
def parseArrayLoop : Nat → List Node → List Token → Option (List Node × List Token)
  | 0, _, _ => none
  | fuel + 1, body, ts =>
    match ts with
    | [] => none
    | t :: rest =>
      if t.tok_type = TokenType.RSqBrac then some (body, ts)
      else
        let item :=
          match t.tok_type with
          | TokenType.LSqBrac => parseArray fuel ts
          | TokenType.LBrace => parseObject fuel ts
          | TokenType.Int | TokenType.String | TokenType.Float | TokenType.Name =>
            match parseSimple t with
            | none => none
            | some n => some (n, rest)
          | _ => none
        match item with
        | none => none
        | some (node, rest2) =>
          match rest2 with
          | [] => none
          | nxt :: rest3 =>
            if nxt.tok_type = TokenType.Comma then
              parseArrayLoop fuel (body ++ [node]) rest3
            else if nxt.tok_type = TokenType.RSqBrac then
              some (body ++ [node], rest3)
            else none

/-- Embedding of `parse_object` (src/parser.rs lines 165-206): consume the
opening brace, and if the next token is `RBrace` return the empty object
early — without consuming that brace, exactly as the source's early
`return` from a `peek` does.  Otherwise parse one pair and run the loop. -/
def parseObject : Nat → List Token → Option (Node × List Token)
  | 0, _ => none
  | fuel + 1, ts =>
    match ts with
    | [] => none
    | _lb :: rest =>
      match rest with
      | [] => none
      | t :: _ =>
        if t.tok_type = TokenType.RBrace then some (Node.Object [], rest)
        else
          match parsePair fuel rest with
          | none => none
          | some (name, value, rest2) =>
            match parseObjectLoop fuel (insertKey [] name value) rest2 with
            | none => none
            | some (body, rest3) => some (Node.Object body, rest3)

/-- Loop of `parse_object` (src/parser.rs lines 187-203): consume one
token; `RBrace` breaks, `Comma` parses another pair and inserts it
(overwriting a duplicate key), anything else panics. -/
def parseObjectLoop : Nat → List (String × Node) → List Token →
    Option (List (String × Node) × List Token)
  | 0, _, _ => none
  | fuel + 1, body, ts =>
    match ts with
    | [] => none
    | start :: rest =>
      if start.tok_type = TokenType.RBrace then some (body, rest)
      else if start.tok_type = TokenType.Comma then
        match parsePair fuel rest with
        | none => none
        | some (name, value, rest2) =>
          parseObjectLoop fuel (insertKey body name value) rest2
      else none

/-- Embedding of `parse_pair` (src/parser.rs lines 126-163): a `String`
key token, a `Colon`, then a value chosen by one-token lookahead.  The
`start` parameter of the source is only used in panic messages and is
dropped here. -/
def parsePair : Nat → List Token → Option (String × Node × List Token)
  | 0, _ => none
  | fuel + 1, ts =>
    match ts with
    | [] => none
    | t :: rest =>
      if t.tok_type = TokenType.String then
        match rest with
        | [] => none
        | c :: rest2 =>
          if c.tok_type = TokenType.Colon then
            match rest2 with
            | [] => none
            | v :: rest3 =>
              match v.tok_type with
              | TokenType.LBrace =>
                match parseObject fuel rest2 with
                | none => none
                | some (n, r) => some (t.value, n, r)
              | TokenType.LSqBrac =>
                match parseArray fuel rest2 with
                | none => none
                | some (n, r) => some (t.value, n, r)
              | TokenType.Int | TokenType.String | TokenType.Float | TokenType.Name =>
                match parseSimple v with
                | none => none
                | some n => some (t.value, n, rest3)
              | _ => none
          else none
      else none

end

/-- Embedding of `parse` (src/parser.rs lines 208-230).  Zero tokens yield
the `Empty` sentinel.  In the simple-value arm the source only `peek`s the
first token and never consumes it, so the stream it checks afterwards is
the whole input; any non-empty remainder after the root value panics
("Tokens iterator was not entirely consumed"), hence `none`.  The fuel
`2 * ts.length + 2` exceeds the recursion the token list can drive: every
two fuel ticks consume at least one token. -/
def parse (ts : List Token) : Option Node :=
  match ts with
  | [] => some Node.Empty
  | first :: _ =>
    let step :=
      match first.tok_type with
      | TokenType.Int | TokenType.Float | TokenType.String | TokenType.Name =>
        match parseSimple first with
        | none => none
        | some n => some (n, ts)
      | TokenType.LBrace => parseObject (2 * ts.length + 2) ts
      | TokenType.LSqBrac => parseArray (2 * ts.length + 2) ts
      | _ => none
    match step with
    | none => none
    | some (out, rest) =>
      match rest with
      | [] => some out
      | _ :: _ => none

/-!
## Theorems about the claims
-/

/-- Claim C1 (code bug): the claim says every input matching the section
4.5 grammar — in particular `123`, the empty object and the empty array —
parses successfully, but the code fails on all three named examples: the
top-level simple-value arm of `parse` only peeks its token and never
consumes it, and the empty-object / empty-array exits never consume the
closing bracket, so the trailing-token check panics although tokenising
succeeded. -/
theorem c1_grammar_inputs_fail :
    tokenise "\x7b\x7d" = some [Token.mk 1 2 TokenType.LBrace "\x7b",
      Token.mk 1 3 TokenType.RBrace "\x7d"] ∧
    (tokenise "\x7b\x7d").bind parse = none ∧
    (tokenise "[]").bind parse = none ∧
    (tokenise "123").bind parse = none :=
  ⟨rfl, rfl, rfl, rfl⟩

/-- Claim C2 (code bug): the claim says a number lexeme with an exponent
but no fractional part is emitted as a Float token, but `try_get_number`
falls through to the Int constructor after appending the exponent, so
`1e5` is emitted with kind Int (while `1.5e10` is indeed one Float token
with literal `1.5e10`). -/
theorem c2_exponent_without_fraction_is_int :
    tokenise "1e5" = some [Token.mk 1 1 TokenType.Int "1e5"] ∧
    tokenise "1.5e10" = some [Token.mk 1 1 TokenType.Float "1.5e10"] :=
  ⟨rfl, rfl⟩

/-- Claim C3 (code bug): the claim says every Int token's literal parses
as a 64-bit signed integer so `parse_simple` never fails on tokenizer
output; but the tokenizer emits the Int token `1e5` (see C2), whose
literal the i64 parse rejects, so `parse_simple` does fail on tokenizer
output. -/
theorem c3_int_token_not_i64_parseable :
    tokenise "1e5" = some [Token.mk 1 1 TokenType.Int "1e5"] ∧
    parseI64 "1e5" = none ∧
    parseSimple (Token.mk 1 1 TokenType.Int "1e5") = none :=
  ⟨rfl, rfl, rfl⟩

/-- Claim C4 (counterexample): the claim says the String token literal
carries no surrounding quote characters, but tokenising the 6-character
source `"a\nb"` yields a literal of 5 characters — quote, `a`, LF, `b`,
quote — not the claimed 3-character `a`, LF, `b`. -/
theorem c4_counterexample :
    (tokenise "\"a\\nb\"").map (List.map Token.value) = some ["\"a\nb\""] ∧
    ("\"a\nb\"" : String) ≠ "a\nb" :=
  ⟨rfl, by decide⟩

/-- Claim C4 (amended): escape sequences are decoded eagerly — the literal
holds the characters the escapes denote — but the surrounding quotes are
retained: the source pushes the consumed opening and closing quote
characters into the literal, so the 6-character source `"a\nb"` yields one
String token whose literal is the 5-character string quote, `a`, LF, `b`,
quote. -/
theorem c4_escapes_decoded_quotes_retained :
    tokenise "\"a\\nb\"" = some [Token.mk 1 1 TokenType.String "\"a\nb\""] ∧
    ("\"a\nb\"" : String).data = ['"', 'a', '\n', 'b', '"'] :=
  ⟨rfl, rfl⟩

/-- Claim C5 (code bug): the claim says the token literal is exactly the
matched numeric substring, so `-5` yields literal `-5`; but the minus-sign
arm of `try_grab_integer` pushes the peeked digit without consuming it,
so the digit is read twice and `-5` tokenises to the Int literal `-55`,
which then parses to the integer −55 rather than −5. -/
theorem c5_minus_digit_read_twice :
    tokenise "-5" = some [Token.mk 1 1 TokenType.Int "-55"] ∧
    parseSimple (Token.mk 1 1 TokenType.Int "-55") = some (Node.Integer (-55)) :=
  ⟨rfl, rfl⟩

/-- Claim C6 (code bug): the claim — like the source comment above the
unwraps — says decoding a `\u` escape with four hex digits always
succeeds, including surrogate values; but `char::from_u32` returns `None`
on the surrogate range, so `\ud800` panics on the unwrap, while the
non-surrogate `\u00e9` does decode to `é` (inside a quote-retaining
literal, see C4). -/
theorem c6_surrogate_escape_panics :
    tokenise "\"\\ud800\"" = none ∧
    tokenise "\"\\u00e9\"" = some [Token.mk 1 1 TokenType.String "\"é\""] :=
  ⟨rfl, rfl⟩

/-- Claim C8 (counterexample): the claim names `a` as the single key of
`parse(tokenise("{"a":1,"a":2}"))`, but the key stored in the object is
the String token's literal, which retains the quotes (see C4): the result
is not an object with the bare key `a`. -/
theorem c8_counterexample :
    ¬ ((tokenise "\x7b\"a\":1,\"a\":2\x7d").bind parse
        = some (Node.Object [("a", Node.Integer 2)])) := by
  intro h
  have hbase : (tokenise "\x7b\"a\":1,\"a\":2\x7d").bind parse
      = some (Node.Object [("\"a\"", Node.Integer 2)]) := rfl
  rw [hbase] at h
  injection h with h1
  injection h1 with h2
  injection h2 with h3 _
  injection h3 with h5 _
  exact absurd h5 (by decide)

/-- Claim C8 (amended): last-write-wins holds — the later duplicate pair
overwrites the earlier value without an error — and the result is a
single-pair object mapping the key token's quote-retaining literal `"a"`
to the integer 2. -/
theorem c8_last_write_wins :
    (tokenise "\x7b\"a\":1,\"a\":2\x7d").bind parse
      = some (Node.Object [("\"a\"", Node.Integer 2)]) ∧
    insertKey [("\"a\"", Node.Integer 1)] "\"a\"" (Node.Integer 2)
      = [("\"a\"", Node.Integer 2)] :=
  ⟨rfl, rfl⟩

/-- The escape converter never touches the line counter: only columns are
advanced. -/
theorem tryConvertEscapeSequence_line (cs : List Char) (p : Pos) (c : Char)
    (r : List Char) (p2 : Pos)
    (h : tryConvertEscapeSequence cs p = some (c, r, p2)) : p2.line = p.line := by
  simp only [tryConvertEscapeSequence] at h
  repeat' split at h
  all_goals
    first
    | exact Option.noConfusion h
    | (simp only [Option.some.injEq, Prod.mk.injEq] at h
       rcases h with ⟨rfl, rfl, rfl⟩
       rfl)

/-- The string loop emits a token carrying the line recorded at entry and
leaves the position's line unchanged (strings cannot contain a raw
newline, and escapes only advance columns). -/
theorem tryGetStringLoop_line (fuel : Nat) :
    ∀ cs p res ln col tok r p2,
      tryGetStringLoop fuel cs p res ln col = some (tok, r, p2) →
      tok.line_no = ln ∧ p2.line = p.line := by
  induction fuel with
  | zero =>
    intro cs p res ln col tok r p2 h
    exact Option.noConfusion h
  | succ f ih =>
    intro cs p res ln col tok r p2 h
    cases cs with
    | nil => exact Option.noConfusion h
    | cons ch rest =>
      simp only [tryGetStringLoop] at h
      split at h
      · exact Option.noConfusion h
      · split at h
        · split at h
          · exact Option.noConfusion h
          · rename_i c2 rest2 pos2 heq
            have hlin := tryConvertEscapeSequence_line _ _ _ _ _ heq
            have := ih _ _ _ _ _ _ _ _ h
            exact ⟨this.1, by rw [this.2, hlin]⟩
        · split at h
          · simp only [Option.some.injEq, Prod.mk.injEq] at h
            rcases h with ⟨rfl, rfl, rfl⟩
            exact ⟨rfl, rfl⟩
          · have := ih _ _ _ _ _ _ _ _ h
            exact ⟨this.1, this.2⟩

/-- `try_get_string` emits a token on the entry line and leaves the line
unchanged. -/
theorem tryGetString_line (cs : List Char) (p : Pos) (tok : Token)
    (r : List Char) (p2 : Pos) (h : tryGetString cs p = some (tok, r, p2)) :
    tok.line_no = p.line ∧ p2.line = p.line := by
  cases cs with
  | nil => exact Option.noConfusion h
  | cons q rest => exact tryGetStringLoop_line _ _ _ _ _ _ _ _ _ h

/-- `try_get_number` reads the position without modifying it and stamps
the token with the current line. -/
theorem tryGetNumber_line (cs : List Char) (p : Pos) (tok : Token)
    (r : List Char) (h : tryGetNumber cs p = some (tok, r)) :
    tok.line_no = p.line := by
  simp only [tryGetNumber] at h
  repeat' split at h
  all_goals
    first
    | exact Option.noConfusion h
    | (simp only [Option.some.injEq, Prod.mk.injEq] at h
       rcases h with ⟨rfl, rfl⟩
       rfl)

/-- `try_get_name` advances only the column, and stamps the token with the
current line. -/
theorem tryGetName_line (cs : List Char) (p : Pos) (tok : Token)
    (r : List Char) (p2 : Pos) (h : tryGetName cs p = some (tok, r, p2)) :
    tok.line_no = p.line ∧ p2.line = p.line := by
  cases cs with
  | nil => exact Option.noConfusion h
  | cons first rest =>
    simp only [tryGetName] at h
    rcases hg : grabNameChars rest (String.mk [first]) 0 with ⟨result, rest2, k⟩
    rw [hg] at h
    simp only [Option.some.injEq, Prod.mk.injEq] at h
    rcases h with ⟨rfl, rfl, rfl⟩
    exact ⟨rfl, rfl⟩

/-- Appending a token stamped with the current line preserves the loop
invariants of `tokeniseLoop_lines`. -/
theorem append_token_invariants (acc : List Token) (tok : Token) (L : Nat)
    (h1 : 1 ≤ L)
    (hacc1 : ∀ t ∈ acc, 1 ≤ t.line_no)
    (hacc2 : ∀ t ∈ acc, t.line_no ≤ L)
    (hpair : List.Pairwise (fun a b => a.line_no ≤ b.line_no) acc)
    (htok : tok.line_no = L) :
    (∀ t ∈ acc ++ [tok], 1 ≤ t.line_no) ∧
    (∀ t ∈ acc ++ [tok], t.line_no ≤ L) ∧
    List.Pairwise (fun a b => a.line_no ≤ b.line_no) (acc ++ [tok]) := by
  refine ⟨?_, ?_, ?_⟩
  · intro t ht
    rcases List.mem_append.mp ht with hm | hm
    · exact hacc1 t hm
    · rw [List.mem_singleton.mp hm, htok]; exact h1
  · intro t ht
    rcases List.mem_append.mp ht with hm | hm
    · exact hacc2 t hm
    · rw [List.mem_singleton.mp hm, htok]
  · refine List.pairwise_append.mpr ⟨hpair, List.pairwise_singleton _ _, ?_⟩
    intro a ha b hb
    rw [List.mem_singleton.mp hb, htok]
    exact hacc2 a ha

/-- Invariant proof for the main tokenizer loop: if the accumulated tokens
so far have lines between 1 and the current line and are non-decreasing,
every successful result has all token lines at least 1 and non-decreasing
across the list.  The line only ever advances (at a newline), and every
emitted token is stamped with the line current when it is produced. -/
theorem tokeniseLoop_lines (fuel : Nat) :
    ∀ cs pos acc out,
      tokeniseLoop fuel cs pos acc = some out →
      1 ≤ pos.line →
      (∀ t ∈ acc, 1 ≤ t.line_no) →
      (∀ t ∈ acc, t.line_no ≤ pos.line) →
      List.Pairwise (fun a b => a.line_no ≤ b.line_no) acc →
      (∀ t ∈ out, 1 ≤ t.line_no) ∧
      List.Pairwise (fun a b => a.line_no ≤ b.line_no) out := by
  induction fuel with
  | zero =>
    intro cs pos acc out h
    exact absurd h (by simp [tokeniseLoop])
  | succ f ih =>
    intro cs pos acc out h h1 hacc1 hacc2 hpair
    cases cs with
    | nil =>
      simp only [tokeniseLoop, Option.some.injEq] at h
      subst h
      exact ⟨hacc1, hpair⟩
    | cons ch rest =>
      simp only [tokeniseLoop] at h
      split at h
      · -- newline: line advances, column resets
        exact ih _ _ _ _ h (Nat.le_succ_of_le h1) hacc1
          (fun t ht => Nat.le_succ_of_le (hacc2 t ht)) hpair
      · split at h
        · -- other whitespace: column advances
          exact ih _ _ _ _ h h1 hacc1 hacc2 hpair
        · split at h
          · -- string token
            split at h
            · exact Option.noConfusion h
            · rename_i tok rest2 pos2 heq
              have hl := tryGetString_line _ _ _ _ _ heq
              obtain ⟨hi1, hi2, hi3⟩ :=
                append_token_invariants acc tok pos.line h1 hacc1 hacc2 hpair hl.1
              exact ih _ _ _ _ h (by rw [hl.2]; exact h1) hi1
                (by rw [hl.2]; exact hi2) hi3
          · split at h
            · -- number token: position unchanged
              split at h
              · exact Option.noConfusion h
              · rename_i tok rest2 heq
                have hl := tryGetNumber_line _ _ _ _ heq
                obtain ⟨hi1, hi2, hi3⟩ :=
                  append_token_invariants acc tok pos.line h1 hacc1 hacc2 hpair hl
                exact ih _ _ _ _ h h1 hi1 hi2 hi3
            · split at h
              · -- name token
                split at h
                · exact Option.noConfusion h
                · rename_i tok rest2 pos2 heq
                  have hl := tryGetName_line _ _ _ _ _ heq
                  obtain ⟨hi1, hi2, hi3⟩ :=
                    append_token_invariants acc tok pos.line h1 hacc1 hacc2 hpair hl.1
                  exact ih _ _ _ _ h (by rw [hl.2]; exact h1) hi1
                    (by rw [hl.2]; exact hi2) hi3
              · -- structural punctuation
                split at h
                · exact Option.noConfusion h
                · rename_i tt heq
                  obtain ⟨hi1, hi2, hi3⟩ :=
                    append_token_invariants acc
                      (Token.mk pos.line (pos.column + 1) tt (String.mk [ch]))
                      pos.line h1 hacc1 hacc2 hpair rfl
                  exact ih _ _ _ _ h h1 hi1 hi2 hi3

/-- Claim C7 (counterexample): the claim says every emitted token has
column at least 1, in particular tokens beginning right after a newline;
but `tokenise` resets the column to 0 at a newline and the number path
never advances it, so the token for the `1` in an input of newline then
`1` carries column 0. -/
theorem c7_counterexample :
    ¬ (∀ (s : String) (ts : List Token),
        tokenise s = some ts → ∀ t ∈ ts, 1 ≤ t.col_no) := by
  intro h
  have := h "\n1" [Token.mk 2 0 TokenType.Int "1"] rfl
    (Token.mk 2 0 TokenType.Int "1") (List.mem_singleton_self _)
  exact absurd this (by decide)

/-- Claim C7 (amended): for every input `tokenise` accepts, every emitted
token has line at least 1, and token lines are non-decreasing across the
token stream; the column, however, can be 0 for a token that begins
immediately after a newline (the source resets the column to 0, not 1),
so the claimed column lower bound of 1 does not hold. -/
theorem c7_lines_ge_one_and_monotone (s : String) (ts : List Token)
    (h : tokenise s = some ts) :
    (∀ t ∈ ts, 1 ≤ t.line_no) ∧
    List.Pairwise (fun a b => a.line_no ≤ b.line_no) ts :=
  tokeniseLoop_lines _ _ _ _ _ h (le_refl 1)
    (fun t ht => absurd ht (List.not_mem_nil t))
    (fun t ht => absurd ht (List.not_mem_nil t))
    List.Pairwise.nil

/-- Claim C7 witness: the amended property evaluated on an input whose
second token begins on line 2. -/
theorem c7_lines_ge_one_and_monotone_witness :
    (∀ t ∈ [Token.mk 1 1 TokenType.Int "1", Token.mk 2 0 TokenType.Int "2"],
      1 ≤ t.line_no) ∧
    List.Pairwise (fun a b => a.line_no ≤ b.line_no)
      [Token.mk 1 1 TokenType.Int "1", Token.mk 2 0 TokenType.Int "2"] :=
  c7_lines_ge_one_and_monotone "1\n2" _ rfl

/-- A successful `parseArray` always returns an `Array` node (its single
success exit wraps the loop's body in `Node::Array`). -/
theorem parseArray_ne_empty (fuel : Nat) (ts : List Token) (n : Node)
    (r : List Token) (h : parseArray fuel ts = some (n, r)) : n ≠ Node.Empty := by
  cases fuel with
  | zero => simp [parseArray] at h
  | succ f =>
    cases ts with
    | nil => simp [parseArray] at h
    | cons a rest =>
      simp only [parseArray] at h
      split at h
      all_goals
        first
        | exact Option.noConfusion h
        | (simp only [Option.some.injEq, Prod.mk.injEq] at h
           rcases h with ⟨rfl, rfl⟩
           simp)

/-- A successful `parseObject` always returns an `Object` node (both of
its success exits build `Node::Object`). -/
theorem parseObject_ne_empty (fuel : Nat) (ts : List Token) (n : Node)
    (r : List Token) (h : parseObject fuel ts = some (n, r)) : n ≠ Node.Empty := by
  cases fuel with
  | zero => simp [parseObject] at h
  | succ f =>
    cases ts with
    | nil => simp [parseObject] at h
    | cons lb rest =>
      cases rest with
      | nil => simp [parseObject] at h
      | cons t rest2 =>
        simp only [parseObject] at h
        repeat' split at h
        all_goals
          first
          | exact Option.noConfusion h
          | (simp only [Option.some.injEq, Prod.mk.injEq] at h
             rcases h with ⟨rfl, rfl⟩
             simp)

/-- Claim C9: `parse` returns the `Empty` sentinel exactly on a zero-token
input, and a zero-token input is not an error: `tokenise ""` succeeds with
no tokens and `parse` of no tokens is `Empty`, while `parse` of a
non-empty token list never returns `Empty`. -/
theorem c9_empty_iff_zero_tokens :
    tokenise "" = some [] ∧ parse [] = some Node.Empty ∧
    ∀ ts : List Token, parse ts = some Node.Empty → ts = [] := by
  refine ⟨rfl, rfl, fun ts h => ?_⟩
  cases ts with
  | nil => rfl
  | cons first rest =>
    exfalso
    simp only [parse] at h
    cases hft : first.tok_type
    case LBrace =>
      simp only [hft] at h
      cases hpo : parseObject (2 * (first :: rest).length + 2) (first :: rest) with
      | none => rw [hpo] at h; exact Option.noConfusion h
      | some pr =>
        obtain ⟨out, r⟩ := pr
        rw [hpo] at h
        cases r with
        | nil =>
          simp only [Option.some.injEq] at h
          exact parseObject_ne_empty _ _ _ _ hpo h
        | cons x xs => exact Option.noConfusion h
    case LSqBrac =>
      simp only [hft] at h
      cases hpa : parseArray (2 * (first :: rest).length + 2) (first :: rest) with
      | none => rw [hpa] at h; exact Option.noConfusion h
      | some pr =>
        obtain ⟨out, r⟩ := pr
        rw [hpa] at h
        cases r with
        | nil =>
          simp only [Option.some.injEq] at h
          exact parseArray_ne_empty _ _ _ _ hpa h
        | cons x xs => exact Option.noConfusion h
    all_goals simp only [hft] at h
    case Int | Float | String | Name =>
      cases hps : parseSimple first <;> simp [hps] at h
    all_goals exact Option.noConfusion h

/-- Claim C9 witness: the equivalence applied at the empty token list. -/
theorem c9_empty_iff_zero_tokens_witness : ([] : List Token) = [] :=
  c9_empty_iff_zero_tokens.2.2 [] rfl

/-- Claim C10: an uppercase exponent marker is normalised — the text
`try_grab_exponent` returns always begins with a lowercase `e` whatever
marker it consumed, so tokenising `1E5` emits the literal `1e5`, which is
not byte-identical to the source. -/
theorem c10_uppercase_exponent_normalised :
    (∀ rest : List Char, tryGrabExponent ('E' :: rest) = tryGrabExponent ('e' :: rest)) ∧
    tokenise "1E5" = some [Token.mk 1 1 TokenType.Int "1e5"] ∧
    ("1e5" : String) ≠ "1E5" :=
  ⟨fun _ => rfl, rfl, by decide⟩

end JsonRs
